import Mathlib

/-!
Verification development for the live conversational audio session of
`src/components/LiveSession.tsx` (VenenumcorPlatform).

The embedding models audio samples as rationals (scaling by the power of
two 32768 and division by 32768.0 are exact in the source's binary
floating point for the magnitudes involved), machine 16-bit integers as
integers reduced modulo 2^16, bytes as naturals below 256, and the
base64 wire envelope as lists of characters.
-/

/-- Truncation of a rational toward zero: the integer conversion JavaScript
applies when a number is stored into an `Int16Array`
(`ToIntegerOrInfinity` truncates toward zero).  `Int.div` is T-division,
which truncates toward zero. -/
def ratTrunc (q : ℚ) : ℤ :=
  q.num.tdiv (q.den : ℤ)

/-- JavaScript `ToInt16`: truncate toward zero, reduce modulo 2^16, and
re-centre into the signed range [-32768, 32767].  This is what
`int16[i] = data[i] * 32768` performs elementwise in `createPcmBlob`
(LiveSession.tsx lines 10-13), applied to the already scaled value. -/
def jsToInt16 (x : ℚ) : ℤ :=
  if ratTrunc x % 65536 < 32768 then ratTrunc x % 65536
  else ratTrunc x % 65536 - 65536

/-- The `Int16Array` built by `createPcmBlob`: each sample is scaled by
32768 and stored with `ToInt16` conversion (LiveSession.tsx lines 10-13). -/
def int16OfSamples (data : List ℚ) : List ℤ :=
  data.map (fun s => jsToInt16 (s * 32768))

/-- The `Uint8Array` view of the `Int16Array` buffer: each 16-bit value in
its unsigned residue form contributes its low byte then its high byte
(little-endian, LiveSession.tsx line 14). -/
def int16LEBytes (xs : List ℤ) : List ℕ :=
  xs.flatMap (fun i => [(i % 65536).toNat % 256, (i % 65536).toNat / 256])

/-- The base64 alphabet used by `btoa` (RFC 4648). -/
def b64Alphabet : List Char :=
  "ABCDEFGHIJKLMNOPQRSTUVWXYZabcdefghijklmnopqrstuvwxyz0123456789+/".toList

/-- Character for a 6-bit value. -/
def b64Char (v : ℕ) : Char :=
  b64Alphabet.getD v '?'

/-- 6-bit value of an alphabet character; `none` for a character outside
the alphabet. -/
def b64Val (c : Char) : Option ℕ :=
  b64Alphabet.indexOf? c

/-- Standard base64 encoding of a byte sequence, as performed by `btoa`
on the binary string built in `createPcmBlob` (LiveSession.tsx lines
15-16): groups of three bytes become four characters, a trailing group of
one or two bytes is padded with `=`. -/
def b64EncodeGroups : List ℕ → List Char
  | [] => []
  | [b0] => [b64Char (b0 / 4), b64Char (b0 % 4 * 16), '=', '=']
  | [b0, b1] => [b64Char (b0 / 4), b64Char (b0 % 4 * 16 + b1 / 16), b64Char (b1 % 16 * 4), '=']
  | b0 :: b1 :: b2 :: rest =>
      b64Char (b0 / 4) :: b64Char (b0 % 4 * 16 + b1 / 16) ::
        b64Char (b1 % 16 * 4 + b2 / 64) :: b64Char (b2 % 64) :: b64EncodeGroups rest

/-- Standard base64 decoding to bytes; `none` on malformed input (bad
length, character outside the alphabet, misplaced padding, or nonzero
discarded bits). -/
def b64DecodeGroups : List Char → Option (List ℕ)
  | [] => some []
  | c0 :: c1 :: c2 :: c3 :: rest =>
      match b64Val c0, b64Val c1 with
      | some v0, some v1 =>
          if c2 = '=' then
            if c3 = '=' ∧ rest = [] ∧ v1 % 16 = 0 then
              some [v0 * 4 + v1 / 16]
            else none
          else
            match b64Val c2 with
            | some v2 =>
                if c3 = '=' then
                  if rest = [] ∧ v2 % 4 = 0 then
                    some [v0 * 4 + v1 / 16, v1 % 16 * 16 + v2 / 4]
                  else none
                else
                  match b64Val c3 with
                  | some v3 =>
                      match b64DecodeGroups rest with
                      | some bs =>
                          some ((v0 * 4 + v1 / 16) :: (v1 % 16 * 16 + v2 / 4) ::
                            (v2 % 4 * 64 + v3) :: bs)
                      | none => none
                  | none => none
            | none => none
      | _, _ => none
  | _ => none

/-- The wire envelope returned by `createPcmBlob` (LiveSession.tsx lines
23-27): base64 payload plus mime descriptor. -/
structure WireAudioChunk where
  data : List Char
  mimeType : String
deriving DecidableEq

/-- `createPcmBlob` (LiveSession.tsx lines 8-28): scale each float sample
by 32768 into an `Int16Array`, view its buffer as bytes little-endian,
base64-encode, and wrap with the outbound mime descriptor. -/
def createPcmBlob (data : List ℚ) : WireAudioChunk :=
  { data := b64EncodeGroups (int16LEBytes (int16OfSamples data)),
    mimeType := "audio/pcm;rate=16000" }

/-- Modelled from the spec: `base64ToUint8Array` is imported from
`services/utils`, a repository file absent from the sources; per spec
section 4.1 it "base64-decodes to bytes", failing on malformed base64
(`MalformedInboundChunk`). -/
def base64ToUint8Array (s : List Char) : Option (List ℕ) :=
  b64DecodeGroups s

/-- The `Int16Array` view taken over the decoded byte buffer
(LiveSession.tsx line 97): adjacent byte pairs little-endian, re-centred
into the signed range.  Constructing the view requires an even byte
length (otherwise `new Int16Array(buffer)` raises `RangeError`); the
even-length check lives in `decodeChunk`. -/
def bytesToInt16LE : List ℕ → List ℤ
  | b0 :: b1 :: rest =>
      (if b0 + 256 * b1 < 32768 then (b0 + 256 * b1 : ℤ)
       else (b0 + 256 * b1 : ℤ) - 65536) :: bytesToInt16LE rest
  | _ => []

/-- The inbound decode block of `onmessage` (LiveSession.tsx lines
94-102): base64-decode, reinterpret the buffer as 16-bit signed
little-endian integers (RangeError when the byte length is odd, modelled
as `none`), and divide each by 32768.0. -/
def decodeChunk (b64 : List Char) : Option (List ℚ) :=
  match base64ToUint8Array b64 with
  | none => none
  | some bytes =>
      if bytes.length % 2 = 0 then
        some ((bytesToInt16LE bytes).map (fun i : ℤ => (i : ℚ) / 32768))
      else none

/-- The Playback Scheduler state held in refs by `LiveSession`
(LiveSession.tsx lines 43-44): `nextStartTimeRef` and `sourcesRef` (the
active set, a list of source handles in insertion order).  `stopped`
records the handles on which `stop()` has been invoked, so that "stops
all N sources" is observable. -/
structure SchedState where
  nextStartTime : ℚ
  active : List ℕ
  stopped : List ℕ
deriving DecidableEq

/-- The scheduling block of `onmessage` (LiveSession.tsx lines 108-117):
raise `nextStartTime` to the clock's `now` when it has fallen behind,
start the source at that time, advance `nextStartTime` by the buffer
duration, and add the source to the active set.  Returns the start time
passed to `src.start` together with the new state. -/
def scheduleChunk (st : SchedState) (now dur : ℚ) (srcId : ℕ) : ℚ × SchedState :=
  let start := if st.nextStartTime < now then now else st.nextStartTime
  (start,
   { st with nextStartTime := start + dur, active := st.active ++ [srcId] })

/-- Iterated scheduling: each event pairs the clock time at arrival with
the buffer duration; the result is the list of scheduled start times. -/
def runSched (st : SchedState) : List (ℚ × ℚ) → List ℚ
  | [] => []
  | e :: rest =>
      (scheduleChunk st e.1 e.2 0).1 :: runSched (scheduleChunk st e.1 e.2 0).2 rest

/-- `src.onended` (LiveSession.tsx line 117): natural end of playback
removes the source from the active set. -/
def sourceEnded (st : SchedState) (srcId : ℕ) : SchedState :=
  { st with active := st.active.erase srcId }

/-- The interruption block of `onmessage` (LiveSession.tsx lines
121-126): stop every source in the active set, clear the set, and reset
`nextStartTime` to zero. -/
def interruptHandler (st : SchedState) : SchedState :=
  { nextStartTime := 0, active := [], stopped := st.stopped ++ st.active }

/-- The duration of the `AudioBuffer` created for decoded samples at the
24 kHz output rate (LiveSession.tsx line 98). -/
def bufferDuration (samples : List ℚ) : ℚ :=
  (samples.length : ℚ) / 24000

/-- The fields of `LiveServerMessage` the `onmessage` handler reads:
`serverContent.modelTurn.parts[0].inlineData.data` and
`serverContent.interrupted`. -/
structure ServerMessage where
  audioData : Option (List Char)
  interrupted : Bool
deriving DecidableEq

/-- The `onmessage` callback (LiveSession.tsx lines 90-127) acting on the
scheduler state: decode and schedule an inbound audio chunk, then apply
the interruption block.  The Boolean is `true` when the handler throws
(decode failure: malformed base64 or an odd byte length); the thrown
exception propagates before any ref is mutated, so the state returned
alongside `true` is the unchanged input state, and the interruption block
of the same message is skipped. -/
def onmessageHandler (msg : ServerMessage) (now : ℚ) (srcId : ℕ) (st : SchedState) :
    SchedState × Bool :=
  match msg.audioData with
  | some b64 =>
      match decodeChunk b64 with
      | none => (st, true)
      | some samples =>
          (if msg.interrupted then
            interruptHandler (scheduleChunk st now (bufferDuration samples) srcId).2
           else (scheduleChunk st now (bufferDuration samples) srcId).2, false)
  | none => (if msg.interrupted then interruptHandler st else st, false)

/-- The status strings the component writes with `setStatus`, as an
enumeration: `readyToConnect` is "Ready to connect", `connecting` is
"Connecting...", `connectedGemini` is "Connected (Gemini 2.5)",
`disconnected` is "Disconnected", `errorOccurred` is "Error occurred". -/
inductive SessionStatus where
  | readyToConnect
  | connecting
  | connectedGemini
  | disconnected
  | errorOccurred
deriving DecidableEq

/-- The log strings written with `addLog`, as an enumeration. -/
inductive LogEvent where
  | sessionOpened
  | interruptedLog
  | errorInSession
deriving DecidableEq

/-- `addLog` (LiveSession.tsx line 46): prepend and keep five entries. -/
def addLog (e : LogEvent) (logs : List LogEvent) : List LogEvent :=
  (e :: logs).take 5

/-- A callback registered on the connect promise with `.then`: either a
deferred `session.sendRealtimeInput` (LiveSession.tsx lines 73-75) or the
deferred `s.close()` of `stopSession` (line 157). -/
inductive ThenAction where
  | send (frame : WireAudioChunk)
  | closeSession
deriving DecidableEq

/-- Whether a registered callback is the deferred close. -/
def isCloseAction : ThenAction → Bool
  | ThenAction.closeSession => true
  | ThenAction.send _ => false

/-- The frames a list of registered callbacks will hand to
`sendRealtimeInput`, in registration order. -/
def sendFrames : List ThenAction → List WireAudioChunk
  | [] => []
  | ThenAction.send f :: rest => f :: sendFrames rest
  | ThenAction.closeSession :: rest => sendFrames rest

/-- The connect promise returned by `ai.live.connect` (LiveSession.tsx
line 82): while pending it accumulates `.then` callbacks in registration
order; they run when it resolves.  The promise object outlives the ref
that points to it. -/
inductive PromiseCore where
  | pending (queued : List ThenAction)
  | resolved
deriving DecidableEq

/-- The observable state of one `LiveSession` component instance: the
React state (`isConnected`, `isMuted`, `status`, `logs`), the refs
(`sessionPromiseRef` as `promiseRefSet` plus the underlying
`connectPromise`, and the scheduler refs in `sched`), and the external
resources (whether `s.close()` has run, whether each audio context's
`close()` has run, whether the microphone tracks were stopped, and the
frames actually passed to `sendRealtimeInput`).  `capturedMuted` is the
value of `isMuted` captured by the closure when
`scriptProcessor.onaudioprocess` was assigned inside `startSession`; it
is fixed at assignment time and is the value line 68 tests.  `sessionRef`
is omitted: the source never assigns it a non-null value. -/
structure ControllerState where
  isConnected : Bool
  isMuted : Bool
  capturedMuted : Bool
  status : SessionStatus
  logs : List LogEvent
  connectPromise : Option PromiseCore
  promiseRefSet : Bool
  sessionClosed : Bool
  outputCtxClosed : Bool
  inputCtxClosed : Bool
  micReleased : Bool
  delivered : List WireAudioChunk
  sched : SchedState
deriving DecidableEq

/-- The state reached when `startSession` (LiveSession.tsx lines 48-153)
has run its synchronous part: contexts open, microphone acquired, capture
callback installed capturing the current `isMuted` value, connect promise
pending with no callbacks yet, `sessionPromiseRef` set (line 147), status
"Connecting...". -/
def initState (muted0 : Bool) : ControllerState :=
  { isConnected := false
    isMuted := muted0
    capturedMuted := muted0
    status := SessionStatus.connecting
    logs := []
    connectPromise := some (PromiseCore.pending [])
    promiseRefSet := true
    sessionClosed := false
    outputCtxClosed := false
    inputCtxClosed := false
    micReleased := false
    delivered := []
    sched := { nextStartTime := 0, active := [], stopped := [] } }

/-- The `onaudioprocess` capture callback (LiveSession.tsx lines 67-77):
return immediately when the captured `isMuted` is set; otherwise encode
the frame and, when `sessionPromiseRef.current` is non-null, register a
`.then` on it that sends the frame — delivered at once if the promise is
already resolved, queued until resolution otherwise.  When the ref is
null the frame is dropped. -/
def onaudioprocessEvent (input : List ℚ) (st : ControllerState) : ControllerState :=
  if st.capturedMuted then st
  else if st.promiseRefSet then
    match st.connectPromise with
    | some (PromiseCore.pending q) =>
        let q2 := q ++ [ThenAction.send (createPcmBlob input)]
        { st with connectPromise := some (PromiseCore.pending q2) }
    | some PromiseCore.resolved =>
        { st with delivered := st.delivered ++ [createPcmBlob input] }
    | none => st
  else st

/-- The `onopen` callback (LiveSession.tsx lines 85-89): unconditionally
set the connected flag, the status, and a log entry. -/
def onopenHandler (st : ControllerState) : ControllerState :=
  { st with isConnected := true
            status := SessionStatus.connectedGemini
            logs := addLog LogEvent.sessionOpened st.logs }

/-- The `onclose` callback (LiveSession.tsx lines 128-131). -/
def oncloseHandler (st : ControllerState) : ControllerState :=
  { st with isConnected := false, status := SessionStatus.disconnected }

/-- Run the callbacks registered on the promise, in registration order:
a deferred send hands its frame to `sendRealtimeInput`; the deferred
close executes `s.close()`. -/
def runThens (st : ControllerState) : List ThenAction → ControllerState
  | [] => st
  | ThenAction.send f :: rest =>
      runThens { st with delivered := st.delivered ++ [f] } rest
  | ThenAction.closeSession :: rest =>
      runThens { st with sessionClosed := true } rest

/-- Resolution of the connect promise (the connection opens): the SDK
fires `onopen`, the promise becomes resolved, and every queued `.then`
callback runs in registration order. -/
def resolveConnect (st : ControllerState) : ControllerState :=
  match st.connectPromise with
  | some (PromiseCore.pending q) =>
      runThens (onopenHandler { st with connectPromise := some PromiseCore.resolved }) q
  | _ => st

/-- `stopSession` (LiveSession.tsx lines 155-168): when
`sessionPromiseRef.current` is non-null, register `s.close()` on it
(executing at once if resolved); call `close()` on both audio contexts
(a second `close()` on a closed context only produces a rejected
promise, no state change); clear the connected flag, reset the status,
and null the refs.  The scheduler refs and the microphone stream are not
touched. -/
def stopSession (st : ControllerState) : ControllerState :=
  let st1 :=
    if st.promiseRefSet then
      match st.connectPromise with
      | some (PromiseCore.pending q) =>
          let q2 := q ++ [ThenAction.closeSession]
          { st with connectPromise := some (PromiseCore.pending q2) }
      | some PromiseCore.resolved => { st with sessionClosed := true }
      | none => st
    else st
  { st1 with outputCtxClosed := true
             inputCtxClosed := true
             isConnected := false
             status := SessionStatus.readyToConnect
             promiseRefSet := false }

/-- The mute button's click handler (LiveSession.tsx line 199):
`setIsMuted(!isMuted)` on the current rendered value. -/
def toggleMuted (st : ControllerState) : ControllerState :=
  { st with isMuted := !st.isMuted }

/-- The `onmessage` callback at the component level (LiveSession.tsx
lines 90-127): it mutates only the scheduler refs, plus a log entry when
the interruption block runs (line 122).  The Boolean is `true` when the
handler throws on decode. -/
def onmessageEvent (msg : ServerMessage) (now : ℚ) (srcId : ℕ)
    (st : ControllerState) : ControllerState × Bool :=
  let r := onmessageHandler msg now srcId st.sched
  let newLogs :=
    if msg.interrupted && !r.2 then addLog LogEvent.interruptedLog st.logs
    else st.logs
  ({ st with sched := r.1, logs := newLogs }, r.2)

theorem b64Val_b64Char : ∀ v : ℕ, v < 64 → b64Val (b64Char v) = some v := by
  decide

theorem b64Char_ne_eq : ∀ v : ℕ, v < 64 → b64Char v ≠ '=' := by
  decide

theorem b64_roundtrip (bs : List ℕ) (h : ∀ b ∈ bs, b < 256) :
    b64DecodeGroups (b64EncodeGroups bs) = some bs := by
  induction bs using b64EncodeGroups.induct with
  | case1 =>
      simp [b64EncodeGroups, b64DecodeGroups]
  | case2 b0 =>
      have h0 : b0 < 256 := h b0 (by simp)
      simp only [b64EncodeGroups, b64DecodeGroups]
      rw [b64Val_b64Char (b0 / 4) (by omega), b64Val_b64Char (b0 % 4 * 16) (by omega)]
      simp only [if_pos rfl, if_true, true_and]
      rw [if_pos (show b0 % 4 * 16 % 16 = 0 by omega)]
      simp only [Option.some.injEq, List.cons.injEq, and_true]
      omega
  | case3 b0 b1 =>
      have h0 : b0 < 256 := h b0 (by simp)
      have h1 : b1 < 256 := h b1 (by simp)
      simp only [b64EncodeGroups, b64DecodeGroups]
      rw [b64Val_b64Char (b0 / 4) (by omega),
        b64Val_b64Char (b0 % 4 * 16 + b1 / 16) (by omega)]
      simp only [if_neg (b64Char_ne_eq (b1 % 16 * 4) (by omega))]
      rw [b64Val_b64Char (b1 % 16 * 4) (by omega)]
      simp only [if_pos rfl, if_true, true_and]
      rw [if_pos (show b1 % 16 * 4 % 4 = 0 by omega)]
      simp only [Option.some.injEq, List.cons.injEq, and_true]
      omega
  | case4 b0 b1 b2 rest ih =>
      have h0 : b0 < 256 := h b0 (by simp)
      have h1 : b1 < 256 := h b1 (by simp)
      have h2 : b2 < 256 := h b2 (by simp)
      have hrest : ∀ b ∈ rest, b < 256 := by
        intro b hb
        exact h b (by simp [hb])
      simp only [b64EncodeGroups, b64DecodeGroups]
      rw [b64Val_b64Char (b0 / 4) (by omega),
        b64Val_b64Char (b0 % 4 * 16 + b1 / 16) (by omega)]
      simp only [if_neg (b64Char_ne_eq (b1 % 16 * 4 + b2 / 64) (by omega))]
      rw [b64Val_b64Char (b1 % 16 * 4 + b2 / 64) (by omega)]
      simp only [if_neg (b64Char_ne_eq (b2 % 64) (by omega))]
      rw [b64Val_b64Char (b2 % 64) (by omega), ih hrest]
      simp only [Option.some.injEq, List.cons.injEq, and_true]
      omega

theorem ratTrunc_eq_floor_of_nonneg (q : ℚ) (h : 0 ≤ q) : ratTrunc q = ⌊q⌋ := by
  rw [Rat.floor_def, ratTrunc]
  exact Int.tdiv_eq_ediv (Rat.num_nonneg.mpr h) (by positivity)

theorem ratTrunc_neg (q : ℚ) : ratTrunc (-q) = -ratTrunc q := by
  unfold ratTrunc
  rw [Rat.neg_num, Rat.neg_den, Int.neg_tdiv]

/-- Truncation toward zero moves a rational by less than one. -/
theorem ratTrunc_err (q : ℚ) : |q - (ratTrunc q : ℚ)| ≤ 1 := by
  rcases le_or_lt 0 q with h | h
  · rw [ratTrunc_eq_floor_of_nonneg q h, abs_le]
    have h1 := Int.floor_le q
    have h2 := Int.lt_floor_add_one q
    constructor <;> linarith
  · have hq : ratTrunc q = ⌈q⌉ := by
      have hneg : ratTrunc (-q) = ⌊-q⌋ :=
        ratTrunc_eq_floor_of_nonneg (-q) (by linarith)
      have := ratTrunc_neg q
      rw [hneg, Int.floor_neg] at this
      omega
    rw [hq, abs_le]
    have h1 := Int.le_ceil q
    have h2 := Int.ceil_lt_add_one q
    constructor <;> linarith

/-- Per-sample quantization error of the 16-bit wire format. -/
theorem sampleQuantErr (s : ℚ) :
    |s - (ratTrunc (s * 32768) : ℚ) / 32768| ≤ 1 / 32768 := by
  have h := ratTrunc_err (s * 32768)
  rw [abs_le] at h ⊢
  constructor <;> [linarith; linarith]

theorem int16LEBytes_lt (xs : List ℤ) : ∀ b ∈ int16LEBytes xs, b < 256 := by
  intro b hb
  unfold int16LEBytes at hb
  simp only [List.mem_flatMap, List.mem_cons, List.mem_singleton] at hb
  obtain ⟨i, _, hcase⟩ := hb
  have h1 : 0 ≤ i % 65536 := Int.emod_nonneg i (by omega)
  have h2 : i % 65536 < 65536 := Int.emod_lt_of_pos i (by omega)
  rcases hcase with h | h | h
  · omega
  · omega
  · simp at h

theorem int16LEBytes_length (xs : List ℤ) :
    (int16LEBytes xs).length = 2 * xs.length := by
  induction xs with
  | nil => rfl
  | cons i rest ih =>
      unfold int16LEBytes at ih ⊢
      simp only [List.flatMap_cons, List.length_append, ih, List.length_cons,
        List.length_nil]
      omega

theorem bytesToInt16LE_int16LEBytes (xs : List ℤ)
    (h : ∀ i ∈ xs, -32768 ≤ i ∧ i ≤ 32767) :
    bytesToInt16LE (int16LEBytes xs) = xs := by
  induction xs with
  | nil => rfl
  | cons i rest ih =>
      have hi := h i (by simp)
      have hrest : ∀ j ∈ rest, -32768 ≤ j ∧ j ≤ 32767 := by
        intro j hj
        exact h j (by simp [hj])
      have hstep : int16LEBytes (i :: rest)
          = (i % 65536).toNat % 256 :: (i % 65536).toNat / 256 :: int16LEBytes rest := by
        unfold int16LEBytes
        simp [List.flatMap_cons]
      rw [hstep, bytesToInt16LE, ih hrest]
      have h1 : 0 ≤ i % 65536 := Int.emod_nonneg i (by omega)
      have h2 : i % 65536 < 65536 := Int.emod_lt_of_pos i (by omega)
      congr 1
      split <;> omega

/-- In-range scaled samples are stored without wrap-around: `ToInt16`
agrees with plain truncation. -/
theorem jsToInt16_of_inRange (x : ℚ) (h1 : -32768 ≤ ratTrunc x)
    (h2 : ratTrunc x ≤ 32767) : jsToInt16 x = ratTrunc x := by
  unfold jsToInt16
  omega

/-- Decoding the encoded wire payload recovers the truncated samples
exactly, whenever every scaled sample is representable in 16 bits. -/
theorem decodeChunk_createPcmBlob (s : List ℚ)
    (h : ∀ x ∈ s, -32768 ≤ ratTrunc (x * 32768) ∧ ratTrunc (x * 32768) ≤ 32767) :
    decodeChunk (createPcmBlob s).data
      = some (s.map (fun x => (ratTrunc (x * 32768) : ℚ) / 32768)) := by
  have hint16 : int16OfSamples s = s.map (fun x => ratTrunc (x * 32768)) := by
    unfold int16OfSamples
    apply List.map_congr_left
    intro x hx
    exact jsToInt16_of_inRange (x * 32768) (h x hx).1 (h x hx).2
  have hrange : ∀ i ∈ int16OfSamples s, -32768 ≤ i ∧ i ≤ 32767 := by
    rw [hint16]
    intro i hi
    simp only [List.mem_map] at hi
    obtain ⟨x, hx, rfl⟩ := hi
    exact h x hx
  unfold decodeChunk base64ToUint8Array createPcmBlob
  rw [b64_roundtrip _ (int16LEBytes_lt _)]
  simp only [int16LEBytes_length, Nat.mul_mod_right, if_pos rfl, if_true]
  rw [bytesToInt16LE_int16LEBytes _ hrange, hint16, List.map_map]
  simp [Function.comp]

theorem runSched_length (st : SchedState) (evs : List (ℚ × ℚ)) :
    (runSched st evs).length = evs.length := by
  induction evs generalizing st with
  | nil => rfl
  | cons e rest ih => simp [runSched, ih]

/-- When every arrival is no later than the running schedule, the
scheduler never raises `nextStartTime`, and the k-th start time is the
initial `nextStartTime` plus the durations already scheduled. -/
theorem runSched_getD (evs : List (ℚ × ℚ)) (st : SchedState)
    (h : ∀ k, k < evs.length →
      (evs.getD k (0, 0)).1 ≤ st.nextStartTime + ((evs.take k).map Prod.snd).sum) :
    ∀ k, k < evs.length →
      (runSched st evs).getD k 0
        = st.nextStartTime + ((evs.take k).map Prod.snd).sum := by
  induction evs generalizing st with
  | nil =>
      intro k hk
      simp at hk
  | cons e rest ih =>
      obtain ⟨now, d⟩ := e
      have h0 : now ≤ st.nextStartTime := by
        have := h 0 (by simp)
        simpa using this
      have hstart : (scheduleChunk st now d 0).1 = st.nextStartTime := by
        unfold scheduleChunk
        simp only []
        rw [if_neg (by linarith)]
      intro k hk
      cases k with
      | zero =>
          simp [runSched, hstart]
      | succ k' =>
          have hk' : k' < rest.length := by simpa using hk
          have hshift : ∀ j, j < rest.length →
              (rest.getD j (0, 0)).1
                ≤ (scheduleChunk st now d 0).2.nextStartTime
                    + ((rest.take j).map Prod.snd).sum := by
            intro j hj
            have := h (j + 1) (by simpa using hj)
            simp only [List.getD_cons_succ, List.take_succ_cons, List.map_cons,
              List.sum_cons] at this
            have hnst : (scheduleChunk st now d 0).2.nextStartTime
                = st.nextStartTime + d := by
              unfold scheduleChunk
              simp only []
              rw [if_neg (by linarith)]
            rw [hnst]
            linarith
          have := ih ((scheduleChunk st now d 0).2) hshift k' hk'
          simp only [runSched, List.getD_cons_succ, this]
          have hnst : (scheduleChunk st now d 0).2.nextStartTime
              = st.nextStartTime + d := by
            unfold scheduleChunk
            simp only []
            rw [if_neg (by linarith)]
          rw [hnst]
          simp only [List.take_succ_cons, List.map_cons, List.sum_cons]
          ring

/-- Back-to-back starts: with the first buffer scheduled at `start0`, if
every later arrival is no later than `start0` plus the durations already
scheduled, consecutive start times differ by exactly the duration. -/
theorem runSched_chain (st : SchedState) (e0 : ℚ × ℚ) (rest : List (ℚ × ℚ))
    (h : ∀ k, k < rest.length →
      (rest.getD k (0, 0)).1
        ≤ (scheduleChunk st e0.1 e0.2 0).1 + e0.2 + ((rest.take k).map Prod.snd).sum) :
    ∀ k, k + 1 < (e0 :: rest).length →
      (runSched st (e0 :: rest)).getD (k + 1) 0
        = (runSched st (e0 :: rest)).getD k 0 + ((e0 :: rest).getD k (0, 0)).2 := by
  intro k hk
  have hk' : k < rest.length := by simpa using hk
  have hnst : (scheduleChunk st e0.1 e0.2 0).2.nextStartTime
      = (scheduleChunk st e0.1 e0.2 0).1 + e0.2 := rfl
  have hbase := runSched_getD rest ((scheduleChunk st e0.1 e0.2 0).2)
    (by
      intro j hj
      rw [hnst]
      exact h j hj)
  have hcons : runSched st (e0 :: rest)
      = (scheduleChunk st e0.1 e0.2 0).1
          :: runSched (scheduleChunk st e0.1 e0.2 0).2 rest := rfl
  cases k with
  | zero =>
      have h0 := hbase 0 hk'
      rw [hcons]
      simp only [List.getD_cons_succ, List.getD_cons_zero]
      rw [h0, hnst]
      simp
  | succ k' =>
      have hk'' : k' < rest.length := by omega
      have h1 := hbase (k' + 1) hk'
      have h2 := hbase k' hk''
      rw [hcons]
      simp only [List.getD_cons_succ]
      rw [h1, h2]
      have hsum : ((rest.take (k' + 1)).map Prod.snd).sum
          = ((rest.take k').map Prod.snd).sum + (rest.getD k' (0, 0)).2 := by
        rw [List.map_take, List.map_take, List.sum_take_succ (rest.map Prod.snd) k'
          (by simpa using hk''), List.getElem_map, List.getD_eq_getElem rest (0, 0) hk'']
      rw [hsum]
      ring

theorem runThens_delivered (q : List ThenAction) : ∀ st : ControllerState,
    (runThens st q).delivered = st.delivered ++ sendFrames q := by
  induction q with
  | nil => intro st; simp [runThens, sendFrames]
  | cons a rest ih =>
      intro st
      cases a with
      | send f => simp [runThens, sendFrames, ih]
      | closeSession => simp [runThens, sendFrames, ih]

theorem runThens_isConnected (q : List ThenAction) : ∀ st : ControllerState,
    (runThens st q).isConnected = st.isConnected := by
  induction q with
  | nil => intro st; rfl
  | cons a rest ih =>
      intro st
      cases a with
      | send f => simp [runThens, ih]
      | closeSession => simp [runThens, ih]

theorem runThens_sessionClosed (q : List ThenAction) : ∀ st : ControllerState,
    (runThens st q).sessionClosed = (st.sessionClosed || q.any isCloseAction) := by
  induction q with
  | nil => intro st; simp [runThens]
  | cons a rest ih =>
      intro st
      cases a with
      | send f => simp [runThens, ih, isCloseAction]
      | closeSession => simp [runThens, ih, isCloseAction]

theorem sendFrames_append (q1 q2 : List ThenAction) :
    sendFrames (q1 ++ q2) = sendFrames q1 ++ sendFrames q2 := by
  induction q1 with
  | nil => rfl
  | cons a rest ih =>
      cases a with
      | send f => simp [sendFrames, ih]
      | closeSession => simp [sendFrames, ih]

theorem runThens_status (q : List ThenAction) : ∀ st : ControllerState,
    (runThens st q).status = st.status := by
  induction q with
  | nil => intro st; rfl
  | cons a rest ih =>
      intro st
      cases a with
      | send f => simp [runThens, ih]
      | closeSession => simp [runThens, ih]

/-- Claim C1 (confirmed): every inbound decoded buffer is scheduled at
`NextStartTime` after first raising it to the current playback-clock time
if it has fallen behind (the start time is the maximum of the two, hence
never in the past), and `NextStartTime` then advances by the buffer
duration; consequently, for a sequence of buffers whose arrivals are not
delayed past the running total of durations (measured from the first
scheduled start), consecutive scheduled start times satisfy
start(n+1) = start(n) + d(n) — no gap, no overlap. -/
theorem C1_gap_free_scheduling :
    (∀ (st : SchedState) (now dur : ℚ) (srcId : ℕ),
        (scheduleChunk st now dur srcId).1 = max st.nextStartTime now
      ∧ now ≤ (scheduleChunk st now dur srcId).1
      ∧ (scheduleChunk st now dur srcId).2.nextStartTime
          = (scheduleChunk st now dur srcId).1 + dur)
  ∧ (∀ (st : SchedState) (e0 : ℚ × ℚ) (rest : List (ℚ × ℚ)),
      (∀ k, k < rest.length →
        (rest.getD k (0, 0)).1
          ≤ (scheduleChunk st e0.1 e0.2 0).1 + e0.2
              + ((rest.take k).map Prod.snd).sum) →
      ∀ k, k + 1 < (e0 :: rest).length →
        (runSched st (e0 :: rest)).getD (k + 1) 0
          = (runSched st (e0 :: rest)).getD k 0
              + ((e0 :: rest).getD k (0, 0)).2) := by
  constructor
  · intro st now dur srcId
    refine ⟨?_, ?_, rfl⟩
    · unfold scheduleChunk
      simp only []
      split
      · exact (max_eq_right (by linarith)).symm
      · exact (max_eq_left (by linarith)).symm
    · unfold scheduleChunk
      simp only []
      split
      · linarith
      · linarith
  · exact runSched_chain

/-- Witness for C1: two buffers, the first arriving at clock time 1 with
duration 1, the second arriving at clock time 3/2 (before the first ends);
the second start equals the first start plus the first duration. -/
theorem C1_witness :
    (∀ k, k < ([((3 : ℚ)/2, (1 : ℚ)/2)] : List (ℚ × ℚ)).length →
      (([((3 : ℚ)/2, (1 : ℚ)/2)] : List (ℚ × ℚ)).getD k (0, 0)).1
        ≤ (scheduleChunk ⟨0, [], []⟩ ((1 : ℚ), (1 : ℚ)).1 ((1 : ℚ), (1 : ℚ)).2 0).1
            + ((1 : ℚ), (1 : ℚ)).2
            + ((([((3 : ℚ)/2, (1 : ℚ)/2)] : List (ℚ × ℚ)).take k).map Prod.snd).sum)
  ∧ (runSched ⟨0, [], []⟩ [((1 : ℚ), (1 : ℚ)), ((3 : ℚ)/2, (1 : ℚ)/2)]).getD 1 0
      = (runSched ⟨0, [], []⟩ [((1 : ℚ), (1 : ℚ)), ((3 : ℚ)/2, (1 : ℚ)/2)]).getD 0 0
          + (([((1 : ℚ), (1 : ℚ)), ((3 : ℚ)/2, (1 : ℚ)/2)] : List (ℚ × ℚ)).getD 0 (0, 0)).2 := by
  have harr : ∀ k, k < ([((3 : ℚ)/2, (1 : ℚ)/2)] : List (ℚ × ℚ)).length →
      (([((3 : ℚ)/2, (1 : ℚ)/2)] : List (ℚ × ℚ)).getD k (0, 0)).1
        ≤ (scheduleChunk ⟨0, [], []⟩ ((1 : ℚ), (1 : ℚ)).1 ((1 : ℚ), (1 : ℚ)).2 0).1
            + ((1 : ℚ), (1 : ℚ)).2
            + ((([((3 : ℚ)/2, (1 : ℚ)/2)] : List (ℚ × ℚ)).take k).map Prod.snd).sum := by
    intro k hk
    simp only [List.length_cons, List.length_nil] at hk
    obtain rfl : k = 0 := by omega
    norm_num [scheduleChunk]
  exact ⟨harr,
    C1_gap_free_scheduling.2 ⟨0, [], []⟩ ((1 : ℚ), (1 : ℚ)) [((3 : ℚ)/2, (1 : ℚ)/2)]
      harr 0 (by decide)⟩

/-- Claim C2 counterexample: the claim says invoking the interruption
handler with an empty active set leaves the scheduler state unchanged,
but the handler unconditionally resets `NextStartTime` to zero
(LiveSession.tsx line 125).  At the state with `NextStartTime = 5` and an
empty active set — reachable after a scheduled source finishes playing
naturally — the state does change. -/
theorem C2_counterexample :
    interruptHandler ⟨5, [], []⟩ ≠ (⟨5, [], []⟩ : SchedState) := by
  decide

/-- Claim C2 (amended): on an interruption signal every source in the
active set is stopped (exactly the active ones, in order — with N active
all N are stopped), the set is cleared, and `NextStartTime` is reset to
zero; the handler is idempotent.  With an empty active set no source is
stopped, but `NextStartTime` is still reset to zero, so the scheduler
state is not in general left unchanged. -/
theorem C2_interrupt_amended (st : SchedState) :
    (interruptHandler st).active = []
  ∧ (interruptHandler st).nextStartTime = 0
  ∧ (interruptHandler st).stopped = st.stopped ++ st.active
  ∧ interruptHandler (interruptHandler st) = interruptHandler st := by
  refine ⟨rfl, rfl, rfl, ?_⟩
  simp [interruptHandler]

/-- Claim C8 counterexample: the claim says `NextStartTime` is never set
below the playback clock's current time and that the interruption
handler preserves this.  At a state with `NextStartTime = 5` — so the
clock has advanced at least to the point where 5 was a legal future
start, and can itself read 5 — the interruption handler sets
`NextStartTime` to 0, strictly below it (LiveSession.tsx line 125). -/
theorem C8_counterexample :
    (interruptHandler ⟨5, [7], []⟩).nextStartTime < 5 := by
  decide

/-- Claim C8 (amended): the scheduling operation never schedules into the
past — the chosen start time is at least the clock's `now`, and with a
nonnegative buffer duration the updated `NextStartTime` also stays at or
above `now`; the interruption handler, however, resets `NextStartTime`
to zero, which is below the clock whenever the clock has advanced.  No
buffer is scheduled at that stale value, because the next scheduling
operation first raises `NextStartTime` back to `now`. -/
theorem C8_never_in_past (st : SchedState) (now dur : ℚ) (srcId : ℕ)
    (hdur : 0 ≤ dur) :
    now ≤ (scheduleChunk st now dur srcId).1
  ∧ now ≤ (scheduleChunk st now dur srcId).2.nextStartTime
  ∧ (interruptHandler st).nextStartTime = 0 := by
  refine ⟨?_, ?_, rfl⟩
  · unfold scheduleChunk
    simp only []
    split
    · linarith
    · linarith
  · unfold scheduleChunk
    simp only []
    split
    · linarith
    · linarith

/-- Witness for C8 at the state with `NextStartTime = 0`, clock 2,
duration 1. -/
theorem C8_witness :
    (0 : ℚ) ≤ 1
  ∧ ((2 : ℚ) ≤ (scheduleChunk ⟨0, [], []⟩ 2 1 5).1
      ∧ (2 : ℚ) ≤ (scheduleChunk ⟨0, [], []⟩ 2 1 5).2.nextStartTime
      ∧ (interruptHandler ⟨0, [], []⟩).nextStartTime = 0) :=
  ⟨by decide, C8_never_in_past ⟨0, [], []⟩ 2 1 5 (by decide)⟩

theorem ratTrunc_intCast (n : ℤ) : ratTrunc (n : ℚ) = n := by
  unfold ratTrunc
  rw [Rat.num_intCast, Rat.den_intCast]
  simp

theorem ratTrunc_eq_of_cast (x : ℚ) (n : ℤ) (hx : x * 32768 = (n : ℚ)) :
    ratTrunc (x * 32768) = n := by
  rw [hx, ratTrunc_intCast]

/-- Claim C3 (confirmed): for every sample sequence whose scaled values
are representable in 16 bits, decoding the encoded wire payload
(base64-decode, reinterpret as 16-bit signed little-endian integers,
divide by 32768.0) reproduces the sequence with per-sample error at most
1/32768 — encode and decode are exact inverses modulo 16-bit truncation
loss. -/
theorem C3_codec_roundtrip (s : List ℚ)
    (h : ∀ x ∈ s, -32768 ≤ ratTrunc (x * 32768) ∧ ratTrunc (x * 32768) ≤ 32767) :
    ∃ out : List ℚ, decodeChunk (createPcmBlob s).data = some out
      ∧ out.length = s.length
      ∧ ∀ k, k < s.length → |out.getD k 0 - s.getD k 0| ≤ 1 / 32768 := by
  refine ⟨_, decodeChunk_createPcmBlob s h, by simp, ?_⟩
  intro k hk
  rw [List.getD_eq_getElem _ _ (by simpa using hk), List.getElem_map,
    List.getD_eq_getElem _ _ hk, abs_sub_comm]
  exact sampleQuantErr _

/-- Witness for C3 on the sample list [1/2, -1/4, 0]. -/
theorem C3_witness :
    (∀ x ∈ ([1/2, -1/4, 0] : List ℚ),
      -32768 ≤ ratTrunc (x * 32768) ∧ ratTrunc (x * 32768) ≤ 32767)
  ∧ (∃ out : List ℚ,
      decodeChunk (createPcmBlob [1/2, -1/4, 0]).data = some out
      ∧ out.length = ([1/2, -1/4, 0] : List ℚ).length
      ∧ ∀ k, k < ([1/2, -1/4, 0] : List ℚ).length →
          |out.getD k 0 - ([1/2, -1/4, 0] : List ℚ).getD k 0| ≤ 1 / 32768) := by
  have h : ∀ x ∈ ([1/2, -1/4, 0] : List ℚ),
      -32768 ≤ ratTrunc (x * 32768) ∧ ratTrunc (x * 32768) ≤ 32767 := by
    intro x hx
    fin_cases hx
    · rw [ratTrunc_eq_of_cast _ 16384 (by norm_num)]
      exact ⟨by decide, by decide⟩
    · rw [ratTrunc_eq_of_cast _ (-8192) (by norm_num)]
      exact ⟨by decide, by decide⟩
    · rw [ratTrunc_eq_of_cast _ 0 (by norm_num)]
      exact ⟨by decide, by decide⟩
  exact ⟨h, C3_codec_roundtrip [1/2, -1/4, 0] h⟩

/-- Claim C10 (confirmed): for every input sample, encode stores the
16-bit value obtained by truncating s*32768 toward zero and reducing it
modulo 2^16 into the signed range [-32768, 32767] — the stored value is
congruent to the truncation modulo 2^16 and always in range, with no
clamping or saturation — so the in-range boundary sample s = 1.0 encodes
as -32768 (wrap-around) rather than 32767, and out-of-range samples such
as s = 2.0 wrap (to 0) rather than crash. -/
theorem C10_encode_wraps :
    (∀ q : ℚ, -32768 ≤ jsToInt16 q ∧ jsToInt16 q ≤ 32767
      ∧ (ratTrunc q - jsToInt16 q) % 65536 = 0)
  ∧ int16OfSamples [(1 : ℚ)] = [-32768]
  ∧ int16OfSamples [(2 : ℚ)] = [0] := by
  have h1 : jsToInt16 ((1 : ℚ) * 32768) = -32768 := by
    unfold jsToInt16
    rw [ratTrunc_eq_of_cast _ 32768 (by norm_num)]
    decide
  have h2 : jsToInt16 ((2 : ℚ) * 32768) = 0 := by
    unfold jsToInt16
    rw [ratTrunc_eq_of_cast _ 65536 (by norm_num)]
    decide
  refine ⟨?_, ?_, ?_⟩
  · intro q
    by_cases hc : ratTrunc q % 65536 < 32768 <;>
      simp only [jsToInt16, hc, if_true, if_false] <;>
      omega
  · unfold int16OfSamples
    rw [List.map_cons, List.map_nil, h1]
  · unfold int16OfSamples
    rw [List.map_cons, List.map_nil, h2]

theorem resolveConnect_pending (st : ControllerState) (q : List ThenAction)
    (hp : st.connectPromise = some (PromiseCore.pending q)) :
    resolveConnect st
      = runThens (onopenHandler { st with connectPromise := some PromiseCore.resolved }) q := by
  unfold resolveConnect
  rw [hp]

/-- Claim C4 counterexample: a frame captured while the session is still
establishing (connect promise pending, `CONNECTING`) is not dropped: it
is queued on the promise (not yet delivered) and is then delivered to
the remote service when the connection opens — a frame produced before
the connection opens is delivered after it opens, contradicting the
claimed drop policy. -/
theorem C4_counterexample :
    (onaudioprocessEvent [0] (initState false)).delivered = []
  ∧ (resolveConnect (onaudioprocessEvent [0] (initState false))).delivered
      = [createPcmBlob [0]] :=
  ⟨rfl, rfl⟩

/-- Claim C4 (amended): while the session is establishing with the
session promise registered, each outbound capture frame is deferred on
the promise — nothing is delivered yet, the frame is appended to the
promise's callback queue — and when the connection opens every queued
frame is delivered in capture order after the open (buffered, not
dropped).  Only frames firing before the promise ref is registered are
dropped. -/
theorem C4_connecting_frames_buffered (st : ControllerState) (input : List ℚ)
    (q : List ThenAction) (hm : st.capturedMuted = false)
    (hr : st.promiseRefSet = true)
    (hp : st.connectPromise = some (PromiseCore.pending q)) :
    (onaudioprocessEvent input st).delivered = st.delivered
  ∧ (onaudioprocessEvent input st).connectPromise
      = some (PromiseCore.pending (q ++ [ThenAction.send (createPcmBlob input)]))
  ∧ (resolveConnect (onaudioprocessEvent input st)).delivered
      = st.delivered ++ sendFrames q ++ [createPcmBlob input] := by
  have he : onaudioprocessEvent input st
      = { st with connectPromise := some (PromiseCore.pending (q ++ [ThenAction.send (createPcmBlob input)])) } := by
    simp [onaudioprocessEvent, hm, hr, hp]
  refine ⟨by rw [he], by rw [he], ?_⟩
  rw [he, resolveConnect_pending _ (q ++ [ThenAction.send (createPcmBlob input)]) rfl,
    runThens_delivered, sendFrames_append]
  simp [onopenHandler, sendFrames]

/-- Witness for C4 at the freshly connecting state. -/
theorem C4_witness :
    (initState false).capturedMuted = false
  ∧ (initState false).promiseRefSet = true
  ∧ (initState false).connectPromise = some (PromiseCore.pending [])
  ∧ ((onaudioprocessEvent [0] (initState false)).delivered = (initState false).delivered
     ∧ (onaudioprocessEvent [0] (initState false)).connectPromise
         = some (PromiseCore.pending ([] ++ [ThenAction.send (createPcmBlob [0])]))
     ∧ (resolveConnect (onaudioprocessEvent [0] (initState false))).delivered
         = (initState false).delivered ++ sendFrames [] ++ [createPcmBlob [0]]) :=
  ⟨rfl, rfl, rfl, C4_connecting_frames_buffered (initState false) [0] [] rfl rfl rfl⟩

/-- Claim C5 counterexample: the claim says `stop()` resets all scheduler
state (`NextStartTime = 0`, active set cleared) and releases the
microphone stream.  From a session state in which one inbound chunk has
been scheduled (`NextStartTime = 5`, one active source — reachable by
scheduling), `stopSession` leaves `NextStartTime` at 5, leaves the active
set non-empty, and never stops the microphone tracks (`stream` is a local
of `startSession` that `stopSession` cannot reach). -/
theorem C5_counterexample :
    (stopSession { initState false with sched := ⟨5, [7], []⟩ }).sched
      = (⟨5, [7], []⟩ : SchedState)
  ∧ (5 : ℚ) ≠ 0
  ∧ (stopSession { initState false with sched := ⟨5, [7], []⟩ }).micReleased = false :=
  ⟨rfl, by decide, rfl⟩

/-- Claim C5 (amended): `stop()` closes the transport session (queuing the
close on the promise when connect is still pending), closes both audio
contexts, clears the connected flag, resets the status, and nulls the
session refs; it is idempotent — a second call is an observable no-op and
nothing throws (a repeated context `close()` merely yields a rejected
promise).  It does NOT reset the scheduler state (`NextStartTime` and the
active set are left as they were) and does NOT release the microphone
stream. -/
theorem C5_stop_amended (st : ControllerState) :
    (stopSession st).isConnected = false
  ∧ (stopSession st).status = SessionStatus.readyToConnect
  ∧ (stopSession st).outputCtxClosed = true
  ∧ (stopSession st).inputCtxClosed = true
  ∧ (stopSession st).promiseRefSet = false
  ∧ (stopSession st).sched = st.sched
  ∧ (stopSession st).micReleased = st.micReleased
  ∧ stopSession (stopSession st) = stopSession st := by
  cases hr : st.promiseRefSet
  · simp [stopSession, hr]
  · cases hp : st.connectPromise with
    | none => simp [stopSession, hr, hp]
    | some core =>
        cases core with
        | pending q => simp [stopSession, hr, hp]
        | resolved => simp [stopSession, hr, hp]

/-- Claim C6 counterexample: `stop()` is called while the connect
initiated by `start()` is in flight; when the connection then resolves,
`onopen` fires unconditionally and sets the connected flag back to true —
the late resolution is applied, not ignored. -/
theorem C6_counterexample :
    (stopSession (initState false)).isConnected = false
  ∧ (resolveConnect (stopSession (initState false))).isConnected = true :=
  ⟨rfl, rfl⟩

/-- Claim C6 (amended): a connection resolving after `stop()` is applied,
not ignored: the unguarded `onopen` callback resurrects the connected
flag and the status; the `close` queued by `stop()` then executes, so the
late session does get closed (and a later `onclose` would clear the flag
again), but the observable session state is transiently resurrected. -/
theorem C6_late_resolution_applied (st : ControllerState) (q : List ThenAction)
    (hr : st.promiseRefSet = true)
    (hp : st.connectPromise = some (PromiseCore.pending q)) :
    (resolveConnect (stopSession st)).isConnected = true
  ∧ (resolveConnect (stopSession st)).status = SessionStatus.connectedGemini
  ∧ (resolveConnect (stopSession st)).sessionClosed = true := by
  have hs : (stopSession st).connectPromise
      = some (PromiseCore.pending (q ++ [ThenAction.closeSession])) := by
    simp [stopSession, hr, hp]
  rw [resolveConnect_pending _ _ hs, runThens_isConnected, runThens_status,
    runThens_sessionClosed]
  refine ⟨rfl, rfl, ?_⟩
  simp [isCloseAction]

/-- Witness for C6 at the freshly connecting state. -/
theorem C6_witness :
    (initState false).promiseRefSet = true
  ∧ (initState false).connectPromise = some (PromiseCore.pending [])
  ∧ ((resolveConnect (stopSession (initState false))).isConnected = true
     ∧ (resolveConnect (stopSession (initState false))).status
         = SessionStatus.connectedGemini
     ∧ (resolveConnect (stopSession (initState false))).sessionClosed = true) :=
  ⟨rfl, rfl, C6_late_resolution_applied (initState false) [] rfl rfl⟩

/-- Claim C7 (code defect): toggling the mute gate indeed leaves the
transport state untouched, but the capture callback does not honour the
gate: `onaudioprocess` is assigned once inside `startSession` and its
closure captures the `isMuted` value of that render, so after the user
mutes, the installed callback still tests the stale captured value and
encodes and sends the frame.  Concretely: start unmuted (captured value
false), the connection opens, the user toggles mute (`isMuted` becomes
true) — the next capture callback still delivers its frame instead of
dropping it. -/
theorem C7_mute_gate_stale :
    (∀ st : ControllerState,
        (toggleMuted st).isMuted = !st.isMuted
      ∧ (toggleMuted st).connectPromise = st.connectPromise
      ∧ (toggleMuted st).promiseRefSet = st.promiseRefSet
      ∧ (toggleMuted st).sessionClosed = st.sessionClosed
      ∧ (toggleMuted st).isConnected = st.isConnected
      ∧ (toggleMuted st).delivered = st.delivered
      ∧ (toggleMuted st).capturedMuted = st.capturedMuted)
  ∧ (toggleMuted (resolveConnect (initState false))).isMuted = true
  ∧ (onaudioprocessEvent [0] (toggleMuted (resolveConnect (initState false)))).delivered
      = [createPcmBlob [0]] :=
  ⟨fun _ => ⟨rfl, rfl, rfl, rfl, rfl, rfl, rfl⟩, rfl, rfl⟩

/-- Claim C9 counterexample: the claim says the message handler does not
throw on a malformed inbound chunk.  The payload "AA==" is valid base64
decoding to a single byte; `new Int16Array(bytes.buffer)` over an
odd-length buffer raises `RangeError`, so the handler does throw (the
Boolean result is true). -/
theorem C9_counterexample :
    (onmessageHandler ⟨some ['A', 'A', '=', '='], false⟩ 0 0 ⟨0, [], []⟩).2 = true :=
  rfl

/-- Claim C9 (amended): when an inbound audio chunk fails to decode
(malformed base64 or a byte length not reinterpretable as 16-bit
samples), the chunk is discarded with the scheduler state unchanged and
subsequent chunks are still scheduled from that unchanged state — but the
handler throws: the decode error propagates uncaught out of `onmessage`
(there is no try/catch), also skipping the interruption block of the same
message. -/
theorem C9_decode_failure_discards (msg : ServerMessage) (b64 : List Char)
    (now : ℚ) (srcId : ℕ) (st : SchedState) (ha : msg.audioData = some b64)
    (hd : decodeChunk b64 = none) :
    onmessageHandler msg now srcId st = (st, true) := by
  simp only [onmessageHandler, ha, hd]

/-- Witness for C9 on a payload that is not valid base64. -/
theorem C9_witness :
    (⟨some ['!', '!'], false⟩ : ServerMessage).audioData = some ['!', '!']
  ∧ decodeChunk ['!', '!'] = none
  ∧ onmessageHandler ⟨some ['!', '!'], false⟩ 1 2 ⟨3, [4], []⟩
      = (⟨3, [4], []⟩, true) :=
  ⟨rfl, rfl,
   C9_decode_failure_discards ⟨some ['!', '!'], false⟩ ['!', '!'] 1 2 ⟨3, [4], []⟩
     rfl rfl⟩
